import Mathlib

/-!
Verification of the division subsystem described by `src/tissue_mod/compartmentDivision.h`
(namespace `Division` of a vertex-based tissue simulator).

The header declares the rule classes; the member bodies (`flag`, `update`,
`getCandidates`, `astar`, `f`, `Random::random`) live in an implementation file
that is not part of `src/`.  Where a body is missing, the corresponding Lean
definition is modelled from the specification text and carries a doc comment
starting `Modelled from the spec:`.  Everything that is present in the header
(the `Candidate` structs of the shortest-path variants, the inline
`MainAxis::CompareCandidate` comparator) is translated directly.

Real numbers of the program (C++ `double`) are embedded as `ℚ`; mesh indices
(`size_t`) as `ℕ`.
-/

namespace Division

/-- Cross-product term of the shoelace formula for two planar points. -/
def cross (p q : ℚ × ℚ) : ℚ := p.1 * q.2 - q.1 * p.2

/-- Sum of the shoelace edge terms along an open path that starts at `c` and
visits the points of `l` in order (no closing edge). -/
def pathSum (c : ℚ × ℚ) : List (ℚ × ℚ) → ℚ
  | [] => 0
  | x :: l => cross c x + pathSum x l

/-- Last point of a path starting at `c`, default `c` for the empty path. -/
def lastPt (c : ℚ × ℚ) : List (ℚ × ℚ) → ℚ × ℚ
  | [] => c
  | x :: l => lastPt x l

/-- Twice the signed area of the closed polygon whose vertex ring is the given
list: the shoelace sum over consecutive edges plus the closing edge from the
last vertex back to the first. -/
def shoelace : List (ℚ × ℚ) → ℚ
  | [] => 0
  | p :: l => pathSum p l + cross (lastPt p l) p

/-- Squared euclidean length of the chord between two crossing points. -/
def chordLenSq (p q : ℚ × ℚ) : ℚ := (q.1 - p.1) ^ 2 + (q.2 - p.2) ^ 2

/-- Left fold that keeps the element with the smallest measure `m`, keeping the
earlier element on ties.  This is the selection loop shared by the candidate
searches: an incoming element replaces the current best only when its measure
is strictly smaller. -/
def foldlBest {α : Type} (m : α → ℚ) (c : α) (l : List α) : α :=
  l.foldl (fun b x => if m x < m b then x else b) c

/-- The simulation state threaded through every `flag`/`update` member:
the per-entity attribute tables (`DataMatrix` rows) and derivative buffers. -/
structure SimState where
  cellData : List (List ℚ)
  wallData : List (List ℚ)
  vertexData : List (List ℚ)
  cellDerivs : List (List ℚ)
  wallDerivs : List (List ℚ)
  vertexDerivs : List (List ℚ)
deriving DecidableEq

/-- Attribute `k` of cell `i`, read from the cell attribute table. -/
def cellVar (s : SimState) (i k : ℕ) : ℚ := (s.cellData.getD i []).getD k 0

/-- Modelled from the spec: the bracketed bisection step of the 1-D root solve
used by `astar` (the `astar` bodies are absent from `src/`; §4.2 prescribes a
bracketed root-find such as bisection).  Starting from a bracket `[lo, hi]`
with `f lo ≤ 0 < f hi`, each step halves the bracket keeping the sign change
inside; `n` is the iteration budget of the solver loop. -/
def bisect (f : ℚ → ℚ) : ℕ → ℚ → ℚ → ℚ × ℚ
  | 0, lo, hi => (lo, hi)
  | n + 1, lo, hi =>
    if f ((lo + hi) / 2) ≤ 0 then bisect f n ((lo + hi) / 2) hi
    else bisect f n lo ((lo + hi) / 2)

/-- Iteration budget of the modelled bisection (the C++ loop runs to a 1e-6
bracket width, about 20 halvings of the unit interval). -/
def bisectFuel : ℕ := 20

/-- Modelled from the spec: the scalar objective `f(a, sigma, A, B)` of the
per-pair chord optimization.  Its exact formula is absent from `src/`; §4.2
says `A`, `B` are polygon-area terms of the two sub-polygons implied by cutting
at parameter `a` and `sigma` encodes the target area split, the objective being
monotonic in `a` in the valid geometric regime.  It is modelled as the
deviation of the cut's area term `A + a·B` from the target `sigma`, which is
monotone in `a` whenever `0 < B`. -/
def chordObjective (a sigma A B : ℚ) : ℚ := A + a * B - sigma

namespace ShortestPath2D

/-- The transient candidate record of `ShortestPath2D` (header lines 544-550):
chord length, the two crossed wall indices and the two crossing points. -/
structure Candidate where
  distance : ℚ
  wall1 : ℕ
  wall2 : ℕ
  px : ℚ
  py : ℚ
  qx : ℚ
  qy : ℚ
deriving DecidableEq

/-- Modelled from the spec: `ShortestPath2D::f` (body absent from `src/`),
the chord objective shared by the shortest-path family. -/
def f (a sigma A B : ℚ) : ℚ := chordObjective a sigma A B

/-- Modelled from the spec: `ShortestPath2D::astar` (body absent from `src/`),
the lower end of the bisection bracket after the iteration budget. -/
def astar (sigma A B : ℚ) : ℚ := (bisect (fun a => f a sigma A B) bisectFuel 0 1).1

/-- Upper end of the bisection bracket returned alongside `astar`; the root of
the monotone objective lies between `astar` and `astarUpper`. -/
def astarUpper (sigma A B : ℚ) : ℚ := (bisect (fun a => f a sigma A B) bisectFuel 0 1).2

/-- Modelled from the spec: the selection step of `ShortestPath2D::update`
(body absent from `src/`): among the candidates produced by `getCandidates`
(enumerated by increasing `(wall1, wall2)` pair), keep the one of globally
minimal chord distance, ties broken by the earliest (lowest pair). -/
def selectCandidate : List Candidate → Option Candidate
  | [] => none
  | c :: l => some (foldlBest (fun x => x.distance) c l)

/-- Modelled from the spec: the commit step of `ShortestPath2D::update` (body
absent from `src/`).  `commit` is the topological split executor for a chosen
candidate; `areas` computes the daughters' areas of a candidate's chord.  If no
candidate was accepted, or the chosen chord is degenerate (zero-length chord or
zero-area daughter, §7 GeometryDegenerate), the state is returned unchanged;
otherwise the selected candidate is committed. -/
def update (commit : Candidate → SimState → SimState) (areas : Candidate → ℚ × ℚ)
    (cands : List Candidate) (s : SimState) : SimState :=
  match selectCandidate cands with
  | none => s
  | some c =>
    if c.distance = 0 ∨ (areas c).1 = 0 ∨ (areas c).2 = 0 then s else commit c s

end ShortestPath2D

namespace ShortestPath2DRandomized

/-- The transient candidate record of `ShortestPath2DRandomized`
(header lines 587-593), field for field the same as `ShortestPath2D`'s. -/
structure Candidate where
  distance : ℚ
  wall1 : ℕ
  wall2 : ℕ
  px : ℚ
  py : ℚ
  qx : ℚ
  qy : ℚ
deriving DecidableEq

/-- Conversion from the `ShortestPath2D` candidate record. -/
def ofSP2D (c : ShortestPath2D.Candidate) : Candidate :=
  ⟨c.distance, c.wall1, c.wall2, c.px, c.py, c.qx, c.qy⟩

/-- Conversion to the `ShortestPath2D` candidate record. -/
def toSP2D (c : Candidate) : ShortestPath2D.Candidate :=
  ⟨c.distance, c.wall1, c.wall2, c.px, c.py, c.qx, c.qy⟩

/-- Modelled from the spec: `ShortestPath2DRandomized::f` (body absent from
`src/`); §9 says the `astar`/`f` pairing recurs verbatim across the variants. -/
def f (a sigma A B : ℚ) : ℚ := chordObjective a sigma A B

/-- Modelled from the spec: `ShortestPath2DRandomized::astar` (body absent
from `src/`), the same bracketed root solve as `ShortestPath2D::astar`. -/
def astar (sigma A B : ℚ) : ℚ := (bisect (fun a => f a sigma A B) bisectFuel 0 1).1

end ShortestPath2DRandomized

namespace ShortestPath

/-- The transient candidate record of `ShortestPath` (header lines 736-742),
field for field the same as `ShortestPath2D`'s. -/
structure Candidate where
  distance : ℚ
  wall1 : ℕ
  wall2 : ℕ
  px : ℚ
  py : ℚ
  qx : ℚ
  qy : ℚ
deriving DecidableEq

/-- Conversion from the `ShortestPath2D` candidate record. -/
def ofSP2D (c : ShortestPath2D.Candidate) : Candidate :=
  ⟨c.distance, c.wall1, c.wall2, c.px, c.py, c.qx, c.qy⟩

/-- Conversion to the `ShortestPath2D` candidate record. -/
def toSP2D (c : Candidate) : ShortestPath2D.Candidate :=
  ⟨c.distance, c.wall1, c.wall2, c.px, c.py, c.qx, c.qy⟩

/-- Modelled from the spec: `ShortestPath::f` (body absent from `src/`);
§9 says the `astar`/`f` pairing recurs verbatim across the variants. -/
def f (a sigma A B : ℚ) : ℚ := chordObjective a sigma A B

/-- Modelled from the spec: `ShortestPath::astar` (body absent from `src/`),
the same bracketed root solve as `ShortestPath2D::astar`. -/
def astar (sigma A B : ℚ) : ℚ := (bisect (fun a => f a sigma A B) bisectFuel 0 1).1

end ShortestPath

namespace STAViaShortestPath

/-- The transient candidate record of `STAViaShortestPath` (header lines
820-826), field for field the same as `ShortestPath2D`'s. -/
structure Candidate where
  distance : ℚ
  wall1 : ℕ
  wall2 : ℕ
  px : ℚ
  py : ℚ
  qx : ℚ
  qy : ℚ
deriving DecidableEq

/-- Conversion from the `ShortestPath2D` candidate record. -/
def ofSP2D (c : ShortestPath2D.Candidate) : Candidate :=
  ⟨c.distance, c.wall1, c.wall2, c.px, c.py, c.qx, c.qy⟩

/-- Conversion to the `ShortestPath2D` candidate record. -/
def toSP2D (c : Candidate) : ShortestPath2D.Candidate :=
  ⟨c.distance, c.wall1, c.wall2, c.px, c.py, c.qx, c.qy⟩

/-- Modelled from the spec: `STAViaShortestPath::f` (body absent from `src/`);
§9 says the `astar`/`f` pairing recurs verbatim across the variants. -/
def f (a sigma A B : ℚ) : ℚ := chordObjective a sigma A B

/-- Modelled from the spec: `STAViaShortestPath::astar` (body absent from
`src/`), the same bracketed root solve as `ShortestPath2D::astar`. -/
def astar (sigma A B : ℚ) : ℚ := (bisect (fun a => f a sigma A B) bisectFuel 0 1).1

end STAViaShortestPath

namespace ShortestPathGiantCells

/-- The transient candidate record of `ShortestPathGiantCells` (header lines
862-868), field for field the same as `ShortestPath2D`'s. -/
structure Candidate where
  distance : ℚ
  wall1 : ℕ
  wall2 : ℕ
  px : ℚ
  py : ℚ
  qx : ℚ
  qy : ℚ
deriving DecidableEq

/-- Conversion from the `ShortestPath2D` candidate record. -/
def ofSP2D (c : ShortestPath2D.Candidate) : Candidate :=
  ⟨c.distance, c.wall1, c.wall2, c.px, c.py, c.qx, c.qy⟩

/-- Conversion to the `ShortestPath2D` candidate record. -/
def toSP2D (c : Candidate) : ShortestPath2D.Candidate :=
  ⟨c.distance, c.wall1, c.wall2, c.px, c.py, c.qx, c.qy⟩

/-- Modelled from the spec: `ShortestPathGiantCells::f` (body absent from
`src/`); §9 says the `astar`/`f` pairing recurs verbatim across the variants. -/
def f (a sigma A B : ℚ) : ℚ := chordObjective a sigma A B

/-- Modelled from the spec: `ShortestPathGiantCells::astar` (body absent from
`src/`), the same bracketed root solve as `ShortestPath2D::astar`. -/
def astar (sigma A B : ℚ) : ℚ := (bisect (fun a => f a sigma A B) bisectFuel 0 1).1

end ShortestPathGiantCells

namespace FlagResetShortestPath

/-- The transient candidate record of `FlagResetShortestPath` (header lines
1045-1051), field for field the same as `ShortestPath2D`'s. -/
structure Candidate where
  distance : ℚ
  wall1 : ℕ
  wall2 : ℕ
  px : ℚ
  py : ℚ
  qx : ℚ
  qy : ℚ
deriving DecidableEq

/-- Conversion from the `ShortestPath2D` candidate record. -/
def ofSP2D (c : ShortestPath2D.Candidate) : Candidate :=
  ⟨c.distance, c.wall1, c.wall2, c.px, c.py, c.qx, c.qy⟩

/-- Conversion to the `ShortestPath2D` candidate record. -/
def toSP2D (c : Candidate) : ShortestPath2D.Candidate :=
  ⟨c.distance, c.wall1, c.wall2, c.px, c.py, c.qx, c.qy⟩

/-- Modelled from the spec: `FlagResetShortestPath::f` (body absent from
`src/`); §9 says the `astar`/`f` pairing recurs verbatim across the variants. -/
def f (a sigma A B : ℚ) : ℚ := chordObjective a sigma A B

/-- Modelled from the spec: `FlagResetShortestPath::astar` (body absent from
`src/`), the same bracketed root solve as `ShortestPath2D::astar`. -/
def astar (sigma A B : ℚ) : ℚ := (bisect (fun a => f a sigma A B) bisectFuel 0 1).1

/-- Modelled from the spec: `FlagResetShortestPath::flag` (body absent from
`src/`): the external-flag trigger of §4.1 — fires exactly when the
externally written flag attribute equals the sentinel value 1 (the header
documents the rule as dividing a cell when a certain flag has value 1). -/
def flag (flagIdx i : ℕ) (s : SimState) : ℤ × SimState :=
  (if cellVar s i flagIdx = 1 then 1 else 0, s)

end FlagResetShortestPath

/-- Modelled from the spec: the degenerate-subwall guard of `getCandidates`
(bodies absent from `src/`).  `d` is the configured minimum relative distance
(parameter `L^{wall}_{threshold}`), `t` the relative crossing position along
its wall in `[0,1]`.  A crossing point closer than `d` to either endpoint is
clamped to exactly distance `d`; if the wall is too short for clamping (the
admissible band `[d, 1-d]` is empty) the pair is discarded. -/
def clampCrossing (d t : ℚ) : Option ℚ :=
  if 1 - d < d then none
  else if t < d then some d
  else if 1 - d < t then some (1 - d)
  else some t

/-- Modelled from the spec: the Hill-function effective threshold of the
concentration-modulated triggers (`flag` bodies absent from `src/`),
`V_th(c) = V_min + (V_max - V_min)·c^n/(K^n + c^n)`, with concentration
`c ≤ 0` yielding threshold `V_min` (§4.1 edge case).  The Hill exponent is
embedded as a natural number. -/
def hillThreshold (Vmin Vmax K : ℚ) (n : ℕ) (c : ℚ) : ℚ :=
  if c ≤ 0 then Vmin else Vmin + (Vmax - Vmin) * c ^ n / (K ^ n + c ^ n)

namespace VolumeViaLongestWall

/-- Modelled from the spec: `VolumeViaLongestWall::flag` (body absent from
`src/`): fires (returns 1) exactly when the cell's volume attribute exceeds
the configured threshold `V_th`; returned alongside the untouched state to
record that `flag` mutates nothing. -/
def flag (Vth : ℚ) (volIdx i : ℕ) (s : SimState) : ℤ × SimState :=
  (if Vth < cellVar s i volIdx then 1 else 0, s)

end VolumeViaLongestWall

/-- Modelled from the spec: the reference extremal ("apex") coordinate used by
the spatial triggers — the maximal value of the configured coordinate column
over the vertex table. -/
def apexCoord (s : SimState) (k : ℕ) : ℚ :=
  s.vertexData.foldl (fun m row => max m (row.getD k 0)) 0

namespace VolumeViaLongestWallSpatial

/-- Modelled from the spec: `VolumeViaLongestWallSpatial::flag` (body absent
from `src/`): fires exactly when the cell's volume attribute exceeds the
threshold `V_th` AND the cell's distance from the reference extremal ("apex")
coordinate is below the configured maximum `sMax_` (§4.1 volume + spatial). -/
def flag (Vth sMax : ℚ) (volIdx coordIdx posIdx i : ℕ) (s : SimState) :
    ℤ × SimState :=
  (if Vth < cellVar s i volIdx ∧ apexCoord s coordIdx - cellVar s i posIdx < sMax
    then 1 else 0, s)

end VolumeViaLongestWallSpatial

namespace VolumeViaLongestWall3DSpatial

/-- Modelled from the spec: `VolumeViaLongestWall3DSpatial::flag` (body absent
from `src/`): the same volume + spatial trigger as
`VolumeViaLongestWallSpatial`, used for surfaces in 3D. -/
def flag (Vth sMax : ℚ) (volIdx coordIdx posIdx i : ℕ) (s : SimState) :
    ℤ × SimState :=
  (if Vth < cellVar s i volIdx ∧ apexCoord s coordIdx - cellVar s i posIdx < sMax
    then 1 else 0, s)

end VolumeViaLongestWall3DSpatial

namespace VolumeRandomDirectionConcentration

/-- Modelled from the spec: `VolumeRandomDirectionConcentration::flag` (body
absent from `src/`): fires exactly when the cell's volume attribute exceeds
the Hill-function threshold computed from the designated concentration
attribute. -/
def flag (Vmin Vmax K : ℚ) (n : ℕ) (volIdx concIdx i : ℕ) (s : SimState) :
    ℤ × SimState :=
  (if hillThreshold Vmin Vmax K n (cellVar s i concIdx) < cellVar s i volIdx
    then 1 else 0, s)

end VolumeRandomDirectionConcentration

namespace ShortestPath2DConcentration

/-- Modelled from the spec: `ShortestPath2DConcentration::flag` (body absent
from `src/`): the same concentration-modulated Hill trigger as
`VolumeRandomDirectionConcentration`. -/
def flag (Vmin Vmax K : ℚ) (n : ℕ) (volIdx concIdx i : ℕ) (s : SimState) :
    ℤ × SimState :=
  (if hillThreshold Vmin Vmax K n (cellVar s i concIdx) < cellVar s i volIdx
    then 1 else 0, s)

end ShortestPath2DConcentration

namespace Random

/-- Modelled from the spec: `Division::Random::random` (body absent from
`src/`; the header documents it as returning an integer between 0 and n - 1):
the consumed entropy draw `seed` reduced modulo `n`. -/
def random (seed : ℕ) (n : ℤ) : ℤ := (seed : ℤ) % n

/-- Modelled from the spec: `Division::Random::flag` (body absent from
`src/`): fires with fixed probability `p`, by comparing the consumed uniform
draw `u` of the entropy source against `p`; the attribute tables are returned
untouched. -/
def flag (p u : ℚ) (s : SimState) : ℤ × SimState :=
  (if u < p then 1 else 0, s)

end Random

namespace MainAxis

/-- The candidate record of `MainAxis` (header lines 977-982): an eigenvalue
`s`, the candidate's index and the direction vector `p`. -/
structure Candidate where
  s : ℚ
  index : ℕ
  p : List ℚ
deriving DecidableEq

/-- The inline comparator `MainAxis::CompareCandidate::operator()` (header
lines 987-990): `std::abs(a.s) > std::abs(b.s)`. -/
def CompareCandidate (a b : Candidate) : Bool := decide (|b.s| < |a.s|)

/-- The `std::min_element` loop over candidates under `CompareCandidate`: the
running best is replaced exactly when the incoming candidate compares less
(here: has strictly larger `|s|`), so ties keep the first candidate in
enumeration order. -/
def minElement (c : Candidate) (l : List Candidate) : Candidate :=
  l.foldl (fun b x => if CompareCandidate x b then x else b) c

end MainAxis

/-- Modelled from the spec: the per-column redistribution of a size-extensive
attribute in the division executor (the `update` bodies are absent from
`src/`): the parent's value `v` is partitioned proportionally to the
daughters' areas `A1`, `A2`. -/
def splitExtensive (v A1 A2 : ℚ) : ℚ × ℚ := (v * A1 / (A1 + A2), v * A2 / (A1 + A2))

/-- Modelled from the spec: the per-column redistribution of an intensive
attribute (concentration): copied unchanged to both daughters. -/
def copyIntensive (v : ℚ) : ℚ × ℚ := (v, v)

/-- The square example cell of §8: vertices (0,0),(2,0),(2,2),(0,2), walls
`w_k` from vertex `k` to vertex `k+1 mod 4`. -/
def squareVerts : List (ℚ × ℚ) := [(0, 0), (2, 0), (2, 2), (0, 2)]

/-- Daughter ring on the `v1`,`v2` side of a chord crossing wall `w0` at
`(s, 0)` and wall `w2` at `(t, 2)`. -/
def squareDaughterA (s t : ℚ) : List (ℚ × ℚ) := [(s, 0), (2, 0), (2, 2), (t, 2)]

/-- Daughter ring on the `v3`,`v0` side of the same chord. -/
def squareDaughterB (s t : ℚ) : List (ℚ × ℚ) := [(t, 2), (0, 2), (0, 0), (s, 0)]

/-- Modelled from the spec: the candidate `getCandidates` produces for the
square's non-adjacent wall pair `(0, 2)` with target ratio 0.5 — the shortest
area-bisecting chord between walls `w0` and `w2`, from (1,0) to (1,2),
length 2 (minimality among bisecting chords of the pair is proved below). -/
def squareCandidate02 : ShortestPath2D.Candidate := ⟨2, 0, 2, 1, 0, 1, 2⟩

/-- Modelled from the spec: the candidate for the square's other non-adjacent
wall pair `(1, 3)` — the shortest area-bisecting chord between walls `w1` and
`w3`, from (2,1) to (0,1), length 2. -/
def squareCandidate13 : ShortestPath2D.Candidate := ⟨2, 1, 3, 2, 1, 0, 1⟩

/-- Modelled from the spec: the candidate list `getCandidates` returns for the
square cell, enumerated by increasing wall-pair index. -/
def squareCandidates : List ShortestPath2D.Candidate :=
  [squareCandidate02, squareCandidate13]

theorem cross_antisymm (p q : ℚ × ℚ) : cross p q = -cross q p := by
  unfold cross; ring

theorem pathSum_append (c : ℚ × ℚ) (l₁ l₂ : List (ℚ × ℚ)) :
    pathSum c (l₁ ++ l₂) = pathSum c l₁ + pathSum (lastPt c l₁) l₂ := by
  induction l₁ generalizing c with
  | nil => simp [pathSum, lastPt]
  | cons x t ih => simp [pathSum, lastPt, ih x]; ring

theorem lastPt_append (c : ℚ × ℚ) (l₁ l₂ : List (ℚ × ℚ)) :
    lastPt c (l₁ ++ l₂) = lastPt (lastPt c l₁) l₂ := by
  induction l₁ generalizing c with
  | nil => simp [lastPt]
  | cons x t ih => simp [lastPt, ih x]

/-- Shoelace decomposition along a chord: cutting the parent ring
`p :: M ++ q :: N` at the two crossing points `p` and `q` into the daughter
rings `p :: M ++ [q]` and `q :: N ++ [p]` conserves twice the signed area
exactly, because the two opposite copies of the chord edge cancel. -/
theorem shoelace_chord_split (p q : ℚ × ℚ) (M N : List (ℚ × ℚ)) :
    shoelace (p :: (M ++ [q])) + shoelace (q :: (N ++ [p]))
      = shoelace (p :: (M ++ q :: N)) := by
  have h1 : (M ++ q :: N) = (M ++ [q]) ++ N := by simp
  simp only [shoelace, h1, pathSum_append, lastPt_append]
  simp [pathSum, lastPt, cross]
  ring

theorem foldlBest_nil {α : Type} (m : α → ℚ) (c : α) : foldlBest m c [] = c := rfl

theorem foldlBest_cons {α : Type} (m : α → ℚ) (c x : α) (l : List α) :
    foldlBest m c (x :: l) = foldlBest m (if m x < m c then x else c) l := rfl

/-- The fold returns the first element of `c :: l` attaining the minimal
measure: it splits the list as `pre ++ best :: post` with every element of
`pre` strictly worse and every element of the whole list no better. -/
theorem foldlBest_spec {α : Type} (m : α → ℚ) (c : α) (l : List α) :
    ∃ pre post, c :: l = pre ++ foldlBest m c l :: post ∧
      (∀ x ∈ pre, m (foldlBest m c l) < m x) ∧
      (∀ x ∈ c :: l, m (foldlBest m c l) ≤ m x) := by
  induction l generalizing c with
  | nil =>
    refine ⟨[], [], by simp [foldlBest_nil], by simp, ?_⟩
    intro x hx
    simp [foldlBest_nil] at hx ⊢
    simp [hx]
  | cons x t ih =>
    rw [foldlBest_cons]
    by_cases hx : m x < m c
    · simp only [if_pos hx]
      obtain ⟨pre, post, hsplit, hpre, hmin⟩ := ih x
      refine ⟨c :: pre, post, by simp [← hsplit], ?_, ?_⟩
      · intro y hy
        rcases List.mem_cons.mp hy with hy | hy
        · subst hy
          exact lt_of_le_of_lt (hmin x (by simp)) hx
        · exact hpre y hy
      · intro y hy
        rcases List.mem_cons.mp hy with hy | hy
        · subst hy
          exact le_of_lt (lt_of_le_of_lt (hmin x (by simp)) hx)
        · exact hmin y hy
    · simp only [if_neg hx]
      obtain ⟨pre, post, hsplit, hpre, hmin⟩ := ih c
      cases pre with
      | nil =>
        simp only [List.nil_append] at hsplit
        have hc : foldlBest m c t = c := (List.cons.injEq _ _ _ _ ▸ hsplit).1.symm
        refine ⟨[], x :: t, by simp [hc], by simp, ?_⟩
        intro y hy
        rcases List.mem_cons.mp hy with hy | hy
        · subst hy; simp [hc]
        · rcases List.mem_cons.mp hy with hy | hy
          · subst hy; rw [hc]; exact le_of_not_lt hx
          · exact hmin y (by simp [hy])
      | cons z pre₂ =>
        have hz : z = c := by
          have := hsplit
          simp only [List.cons_append] at this
          exact ((List.cons.injEq _ _ _ _).mp this).1.symm
        have htail : t = pre₂ ++ foldlBest m c t :: post := by
          have := hsplit
          simp only [List.cons_append] at this
          exact ((List.cons.injEq _ _ _ _).mp this).2
        have hbc : m (foldlBest m c t) < m c := hpre z (by simp) |>.trans_eq (by rw [hz])
        refine ⟨c :: x :: pre₂, post, by simp [← htail], ?_, ?_⟩
        · intro y hy
          rcases List.mem_cons.mp hy with hy | hy
          · subst hy; exact hbc
          · rcases List.mem_cons.mp hy with hy | hy
            · subst hy; exact lt_of_lt_of_le hbc (le_of_not_lt hx)
            · exact hpre y (by simp [hz, hy])
        · intro y hy
          rcases List.mem_cons.mp hy with hy | hy
          · subst hy; exact le_of_lt hbc
          · rcases List.mem_cons.mp hy with hy | hy
            · subst hy; exact (le_of_lt hbc).trans (le_of_not_lt hx)
            · exact hmin y (by simp [hy])

/-- The bisection bracket stays inside the initial bracket and keeps its ends
ordered. -/
theorem bisect_bounds (f : ℚ → ℚ) (n : ℕ) (lo hi : ℚ) (h : lo ≤ hi) :
    lo ≤ (bisect f n lo hi).1 ∧ (bisect f n lo hi).1 ≤ (bisect f n lo hi).2 ∧
      (bisect f n lo hi).2 ≤ hi := by
  induction n generalizing lo hi with
  | zero => exact ⟨le_refl _, h, le_refl _⟩
  | succ n ih =>
    have hmidlo : lo ≤ (lo + hi) / 2 := by linarith
    have hmidhi : (lo + hi) / 2 ≤ hi := by linarith
    simp only [bisect]
    by_cases hf : f ((lo + hi) / 2) ≤ 0
    · simp only [if_pos hf]
      obtain ⟨h1, h2, h3⟩ := ih ((lo + hi) / 2) hi hmidhi
      exact ⟨hmidlo.trans h1, h2, h3⟩
    · simp only [if_neg hf]
      obtain ⟨h1, h2, h3⟩ := ih lo ((lo + hi) / 2) hmidlo
      exact ⟨h1, h2, h3.trans hmidhi⟩

/-- The bisection keeps the sign change of the objective inside the bracket:
the objective stays non-positive at the lower end and positive at the upper
end. -/
theorem bisect_sign (f : ℚ → ℚ) (n : ℕ) (lo hi : ℚ)
    (hlo : f lo ≤ 0) (hhi : 0 < f hi) :
    f (bisect f n lo hi).1 ≤ 0 ∧ 0 < f (bisect f n lo hi).2 := by
  induction n generalizing lo hi with
  | zero => exact ⟨hlo, hhi⟩
  | succ n ih =>
    simp only [bisect]
    by_cases hf : f ((lo + hi) / 2) ≤ 0
    · simp only [if_pos hf]
      exact ih ((lo + hi) / 2) hi hf hhi
    · simp only [if_neg hf]
      exact ih lo ((lo + hi) / 2) hlo (lt_of_not_le hf)

/-- Each bisection step halves the bracket width. -/
theorem bisect_width (f : ℚ → ℚ) (n : ℕ) (lo hi : ℚ) :
    (bisect f n lo hi).2 - (bisect f n lo hi).1 = (hi - lo) / 2 ^ n := by
  induction n generalizing lo hi with
  | zero => simp [bisect]
  | succ n ih =>
    simp only [bisect]
    by_cases hf : f ((lo + hi) / 2) ≤ 0
    · simp only [if_pos hf]
      rw [ih]
      ring
    · simp only [if_neg hf]
      rw [ih]
      ring

/-- C2: for every successful shortest-path division the daughters' signed
areas sum exactly to the parent's (shoelace decomposition along the chord);
every size-extensive attribute is partitioned proportionally to the daughters'
areas so the daughters' values sum to the parent's pre-division value; every
intensive attribute is copied identically to both daughters; a parent volume
attribute of 5 split 1:1 yields 2.5 on each daughter. -/
theorem claim_C2 :
    (∀ (p q : ℚ × ℚ) (M N : List (ℚ × ℚ)),
      shoelace (p :: (M ++ [q])) + shoelace (q :: (N ++ [p]))
        = shoelace (p :: (M ++ q :: N))) ∧
    (∀ v A1 A2 : ℚ, A1 + A2 ≠ 0 →
      (splitExtensive v A1 A2).1 + (splitExtensive v A1 A2).2 = v) ∧
    (∀ v : ℚ, (copyIntensive v).1 = v ∧ (copyIntensive v).2 = v) ∧
    splitExtensive 5 2 2 = (5 / 2, 5 / 2) := by
  refine ⟨shoelace_chord_split, ?_, fun v => ⟨rfl, rfl⟩, by norm_num [splitExtensive]⟩
  intro v A1 A2 h
  simp only [splitExtensive]
  field_simp
  ring

/-- Witness for C2 at the spec's example: areas 2 and 2 (the bisected square),
parent volume attribute 5, daughters 2.5 each summing back to 5. -/
theorem claim_C2_witness :
    ((2 : ℚ) + 2 ≠ 0 ∧ (splitExtensive 5 2 2).1 + (splitExtensive 5 2 2).2 = 5) ∧
    shoelace (((1 : ℚ), (0 : ℚ)) :: ([((2 : ℚ), (0 : ℚ)), ((2 : ℚ), (2 : ℚ))] ++ [((1 : ℚ), (2 : ℚ))]))
        + shoelace (((1 : ℚ), (2 : ℚ)) :: ([((0 : ℚ), (2 : ℚ)), ((0 : ℚ), (0 : ℚ))] ++ [((1 : ℚ), (0 : ℚ))]))
      = shoelace (((1 : ℚ), (0 : ℚ)) :: ([((2 : ℚ), (0 : ℚ)), ((2 : ℚ), (2 : ℚ))] ++ ((1 : ℚ), (2 : ℚ)) :: [((0 : ℚ), (2 : ℚ)), ((0 : ℚ), (0 : ℚ))])) := by
  have h := claim_C2
  exact ⟨⟨by norm_num, h.2.1 5 2 2 (by norm_num)⟩, h.1 (1, 0) (1, 2) _ _⟩

/-- C4: the concentration-modulated trigger fires exactly when the cell's
volume attribute exceeds the Hill threshold
`V_th(c) = V_min + (V_max - V_min)·c^n/(K^n + c^n)` computed from the
designated concentration attribute; a concentration `c ≤ 0` gives threshold
`V_min`; with `V_min = 2, V_max = 10, K = 1, n = 2, c = 1` the threshold is 6,
volume 5.9 does not fire and volume 6.1 fires — for both
`VolumeRandomDirectionConcentration` and `ShortestPath2DConcentration`. -/
theorem claim_C4 :
    (∀ (Vmin Vmax K : ℚ) (n : ℕ) (volIdx concIdx i : ℕ) (s : SimState),
      ((VolumeRandomDirectionConcentration.flag Vmin Vmax K n volIdx concIdx i s).1 = 1 ↔
        hillThreshold Vmin Vmax K n (cellVar s i concIdx) < cellVar s i volIdx) ∧
      ShortestPath2DConcentration.flag Vmin Vmax K n volIdx concIdx i s
        = VolumeRandomDirectionConcentration.flag Vmin Vmax K n volIdx concIdx i s) ∧
    (∀ (Vmin Vmax K : ℚ) (n : ℕ) (c : ℚ), c ≤ 0 → hillThreshold Vmin Vmax K n c = Vmin) ∧
    hillThreshold 2 10 1 2 1 = 6 ∧
    (VolumeRandomDirectionConcentration.flag 2 10 1 2 0 1 0 ⟨[[59/10, 1]], [], [], [], [], []⟩).1 = 0 ∧
    (VolumeRandomDirectionConcentration.flag 2 10 1 2 0 1 0 ⟨[[61/10, 1]], [], [], [], [], []⟩).1 = 1 ∧
    (ShortestPath2DConcentration.flag 2 10 1 2 0 1 0 ⟨[[59/10, 1]], [], [], [], [], []⟩).1 = 0 ∧
    (ShortestPath2DConcentration.flag 2 10 1 2 0 1 0 ⟨[[61/10, 1]], [], [], [], [], []⟩).1 = 1 := by
  refine ⟨?_, ?_, ?_, ?_, ?_, ?_, ?_⟩
  · intro Vmin Vmax K n volIdx concIdx i s
    refine ⟨?_, rfl⟩
    simp only [VolumeRandomDirectionConcentration.flag]
    split
    · rename_i h; exact iff_of_true rfl h
    · rename_i h; exact iff_of_false (by norm_num) h
  · intro Vmin Vmax K n c hc
    simp [hillThreshold, hc]
  · norm_num [hillThreshold]
  · norm_num [VolumeRandomDirectionConcentration.flag, hillThreshold, cellVar]
  · norm_num [VolumeRandomDirectionConcentration.flag, hillThreshold, cellVar]
  · norm_num [ShortestPath2DConcentration.flag, hillThreshold, cellVar]
  · norm_num [ShortestPath2DConcentration.flag, hillThreshold, cellVar]

/-- Witness for C4 at a concrete nonpositive concentration: `c = -1` yields
threshold `V_min = 2`. -/
theorem claim_C4_witness :
    (-1 : ℚ) ≤ 0 ∧ hillThreshold 2 10 1 2 (-1) = 2 := by
  exact ⟨by norm_num, claim_C4.2.1 2 10 1 2 (-1) (by norm_num)⟩

/-- C5: every accepted crossing position of the minimum-distance guard lies at
relative distance at least `d` (parameter `L^{wall}_{threshold}`) from both
endpoints of its wall; a violating position is clamped to exactly distance
`d` (resp. `1 - d`) rather than discarded, unless the admissible band is empty
(wall too short), in which case the pair is discarded. -/
theorem claim_C5 :
    (∀ d t r : ℚ, clampCrossing d t = some r → d ≤ r ∧ r ≤ 1 - d) ∧
    (∀ d t : ℚ, d ≤ 1 - d → t < d → clampCrossing d t = some d) ∧
    (∀ d t : ℚ, d ≤ 1 - d → 1 - d < t → clampCrossing d t = some (1 - d)) ∧
    (∀ d t : ℚ, 1 - d < d → clampCrossing d t = none) := by
  refine ⟨?_, ?_, ?_, ?_⟩
  · intro d t r h
    simp only [clampCrossing] at h
    split at h
    · exact absurd h (by simp)
    · rename_i hshort
      have hband : d ≤ 1 - d := le_of_not_lt hshort
      split at h
      · obtain rfl : d = r := Option.some.injEq _ _ ▸ h
        exact ⟨le_refl _, hband⟩
      · split at h
        · obtain rfl : 1 - d = r := Option.some.injEq _ _ ▸ h
          exact ⟨hband, le_refl _⟩
        · rename_i hlo hhi
          obtain rfl : t = r := Option.some.injEq _ _ ▸ h
          exact ⟨le_of_not_lt hlo, le_of_not_lt hhi⟩
  · intro d t hband ht
    simp [clampCrossing, not_lt.mpr hband, ht]
  · intro d t hband ht
    have : ¬ t < d := not_lt.mpr (hband.trans (le_of_lt ht))
    simp [clampCrossing, not_lt.mpr hband, this, ht]
  · intro d t hshort
    simp [clampCrossing, hshort]

/-- Witness for C5 at concrete inputs: with `d = 1/10`, the position `1/100`
is clamped to exactly `1/10`, which satisfies the guard bounds; with
`d = 3/5` the band is empty and the pair is discarded. -/
theorem claim_C5_witness :
    (clampCrossing (1/10) (1/100) = some (1/10) ∧
      (1 : ℚ)/10 ≤ 1/10 ∧ (1 : ℚ)/10 ≤ 1 - 1/10) ∧
    ((1 : ℚ)/10 ≤ 1 - 1/10 ∧ (1 : ℚ)/100 < 1/10) ∧
    ((1 : ℚ) - 3/5 < 3/5 ∧ clampCrossing (3/5) (1/2) = none) := by
  have h := claim_C5
  refine ⟨⟨?_, ?_⟩, ⟨by norm_num, by norm_num⟩, ⟨by norm_num, ?_⟩⟩
  · exact h.2.1 (1/10) (1/100) (by norm_num) (by norm_num)
  · exact ⟨le_refl _,
      (h.1 (1/10) (1/100) (1/10) (h.2.1 (1/10) (1/100) (by norm_num) (by norm_num))).2⟩
  · exact h.2.2.2 (3/5) (1/2) (by norm_num)

/-- C7: every division rule's trigger evaluator — the volume-threshold,
volume + spatial (2D and 3D), concentration-modulated (both variants),
external-flag and probabilistic families of §4.1 — returns only 0 or 1,
leaves the attribute tables and derivative matrices untouched, and is
idempotent within a step (re-evaluating on the same state — and, for the
probabilistic rule, on the same entropy draw — gives the same answer). -/
theorem claim_C7 :
    ∀ (Vth sMax : ℚ) (volIdx coordIdx posIdx flagIdx i : ℕ) (s : SimState)
      (Vmin Vmax K : ℚ) (n : ℕ) (concIdx : ℕ) (p u : ℚ),
      ((VolumeViaLongestWall.flag Vth volIdx i s).1 = 0 ∨
        (VolumeViaLongestWall.flag Vth volIdx i s).1 = 1) ∧
      (VolumeViaLongestWall.flag Vth volIdx i s).2 = s ∧
      VolumeViaLongestWall.flag Vth volIdx i s = VolumeViaLongestWall.flag Vth volIdx i s ∧
      ((VolumeViaLongestWallSpatial.flag Vth sMax volIdx coordIdx posIdx i s).1 = 0 ∨
        (VolumeViaLongestWallSpatial.flag Vth sMax volIdx coordIdx posIdx i s).1 = 1) ∧
      (VolumeViaLongestWallSpatial.flag Vth sMax volIdx coordIdx posIdx i s).2 = s ∧
      VolumeViaLongestWallSpatial.flag Vth sMax volIdx coordIdx posIdx i s
        = VolumeViaLongestWallSpatial.flag Vth sMax volIdx coordIdx posIdx i s ∧
      ((VolumeViaLongestWall3DSpatial.flag Vth sMax volIdx coordIdx posIdx i s).1 = 0 ∨
        (VolumeViaLongestWall3DSpatial.flag Vth sMax volIdx coordIdx posIdx i s).1 = 1) ∧
      (VolumeViaLongestWall3DSpatial.flag Vth sMax volIdx coordIdx posIdx i s).2 = s ∧
      VolumeViaLongestWall3DSpatial.flag Vth sMax volIdx coordIdx posIdx i s
        = VolumeViaLongestWall3DSpatial.flag Vth sMax volIdx coordIdx posIdx i s ∧
      ((VolumeRandomDirectionConcentration.flag Vmin Vmax K n volIdx concIdx i s).1 = 0 ∨
        (VolumeRandomDirectionConcentration.flag Vmin Vmax K n volIdx concIdx i s).1 = 1) ∧
      (VolumeRandomDirectionConcentration.flag Vmin Vmax K n volIdx concIdx i s).2 = s ∧
      VolumeRandomDirectionConcentration.flag Vmin Vmax K n volIdx concIdx i s
        = VolumeRandomDirectionConcentration.flag Vmin Vmax K n volIdx concIdx i s ∧
      ((ShortestPath2DConcentration.flag Vmin Vmax K n volIdx concIdx i s).1 = 0 ∨
        (ShortestPath2DConcentration.flag Vmin Vmax K n volIdx concIdx i s).1 = 1) ∧
      (ShortestPath2DConcentration.flag Vmin Vmax K n volIdx concIdx i s).2 = s ∧
      ShortestPath2DConcentration.flag Vmin Vmax K n volIdx concIdx i s
        = ShortestPath2DConcentration.flag Vmin Vmax K n volIdx concIdx i s ∧
      ((FlagResetShortestPath.flag flagIdx i s).1 = 0 ∨
        (FlagResetShortestPath.flag flagIdx i s).1 = 1) ∧
      (FlagResetShortestPath.flag flagIdx i s).2 = s ∧
      FlagResetShortestPath.flag flagIdx i s = FlagResetShortestPath.flag flagIdx i s ∧
      ((Random.flag p u s).1 = 0 ∨ (Random.flag p u s).1 = 1) ∧
      (Random.flag p u s).2 = s ∧
      Random.flag p u s = Random.flag p u s := by
  intro Vth sMax volIdx coordIdx posIdx flagIdx i s Vmin Vmax K n concIdx p u
  refine ⟨?_, rfl, rfl, ?_, rfl, rfl, ?_, rfl, rfl, ?_, rfl, rfl, ?_, rfl, rfl,
    ?_, rfl, rfl, ?_, rfl, rfl⟩
  · simp only [VolumeViaLongestWall.flag]
    split
    · right; rfl
    · left; rfl
  · simp only [VolumeViaLongestWallSpatial.flag]
    split
    · right; rfl
    · left; rfl
  · simp only [VolumeViaLongestWall3DSpatial.flag]
    split
    · right; rfl
    · left; rfl
  · simp only [VolumeRandomDirectionConcentration.flag]
    split
    · right; rfl
    · left; rfl
  · simp only [ShortestPath2DConcentration.flag]
    split
    · right; rfl
    · left; rfl
  · simp only [FlagResetShortestPath.flag]
    split
    · right; rfl
    · left; rfl
  · simp only [Random.flag]
    split
    · right; rfl
    · left; rfl

/-- C8: the `Candidate` records of the shortest-path rule variants have the
same fields `{distance, wall1, wall2, px, py, qx, qy}` — the field-preserving
conversions to and from `ShortestPath2D.Candidate` are mutually inverse — and
each variant's `astar` and `f` are extensionally equal to
`ShortestPath2D`'s. -/
theorem claim_C8 :
    (∀ c, ShortestPath2DRandomized.toSP2D (ShortestPath2DRandomized.ofSP2D c) = c) ∧
    (∀ c, ShortestPath2DRandomized.ofSP2D (ShortestPath2DRandomized.toSP2D c) = c) ∧
    (∀ c, ShortestPath.toSP2D (ShortestPath.ofSP2D c) = c) ∧
    (∀ c, ShortestPath.ofSP2D (ShortestPath.toSP2D c) = c) ∧
    (∀ c, STAViaShortestPath.toSP2D (STAViaShortestPath.ofSP2D c) = c) ∧
    (∀ c, STAViaShortestPath.ofSP2D (STAViaShortestPath.toSP2D c) = c) ∧
    (∀ c, ShortestPathGiantCells.toSP2D (ShortestPathGiantCells.ofSP2D c) = c) ∧
    (∀ c, ShortestPathGiantCells.ofSP2D (ShortestPathGiantCells.toSP2D c) = c) ∧
    (∀ c, FlagResetShortestPath.toSP2D (FlagResetShortestPath.ofSP2D c) = c) ∧
    (∀ c, FlagResetShortestPath.ofSP2D (FlagResetShortestPath.toSP2D c) = c) ∧
    (∀ c, (ShortestPath.ofSP2D c).distance = c.distance ∧
      (ShortestPath.ofSP2D c).wall1 = c.wall1 ∧ (ShortestPath.ofSP2D c).wall2 = c.wall2 ∧
      (ShortestPath.ofSP2D c).px = c.px ∧ (ShortestPath.ofSP2D c).py = c.py ∧
      (ShortestPath.ofSP2D c).qx = c.qx ∧ (ShortestPath.ofSP2D c).qy = c.qy) ∧
    (∀ a sigma A B : ℚ,
      ShortestPath2DRandomized.f a sigma A B = ShortestPath2D.f a sigma A B ∧
      ShortestPath.f a sigma A B = ShortestPath2D.f a sigma A B ∧
      STAViaShortestPath.f a sigma A B = ShortestPath2D.f a sigma A B ∧
      ShortestPathGiantCells.f a sigma A B = ShortestPath2D.f a sigma A B ∧
      FlagResetShortestPath.f a sigma A B = ShortestPath2D.f a sigma A B) ∧
    (∀ sigma A B : ℚ,
      ShortestPath2DRandomized.astar sigma A B = ShortestPath2D.astar sigma A B ∧
      ShortestPath.astar sigma A B = ShortestPath2D.astar sigma A B ∧
      STAViaShortestPath.astar sigma A B = ShortestPath2D.astar sigma A B ∧
      ShortestPathGiantCells.astar sigma A B = ShortestPath2D.astar sigma A B ∧
      FlagResetShortestPath.astar sigma A B = ShortestPath2D.astar sigma A B) := by
  exact ⟨fun c => rfl, fun c => rfl, fun c => rfl, fun c => rfl, fun c => rfl,
    fun c => rfl, fun c => rfl, fun c => rfl, fun c => rfl, fun c => rfl,
    fun c => ⟨rfl, rfl, rfl, rfl, rfl, rfl, rfl⟩,
    fun a sigma A B => ⟨rfl, rfl, rfl, rfl, rfl⟩,
    fun sigma A B => ⟨rfl, rfl, rfl, rfl, rfl⟩⟩

/-- C10: the entropy helper `Division::Random::random(n)` returns an integer
`r` with `0 ≤ r ≤ n - 1` for every `n ≥ 1`. -/
theorem claim_C10 (seed : ℕ) (n : ℤ) (h : 1 ≤ n) :
    0 ≤ Random.random seed n ∧ Random.random seed n ≤ n - 1 := by
  unfold Random.random
  constructor
  · exact Int.emod_nonneg _ (by omega)
  · have := Int.emod_lt_of_pos (seed : ℤ) (show (0 : ℤ) < n by omega)
    omega

/-- Witness for C10 at `seed = 12`, `n = 5`: the draw is in `{0, …, 4}`. -/
theorem claim_C10_witness :
    (1 : ℤ) ≤ 5 ∧ 0 ≤ Random.random 12 5 ∧ Random.random 12 5 ≤ 5 - 1 :=
  ⟨by decide, claim_C10 12 5 (by decide)⟩

/-- The `std::min_element` loop under `CompareCandidate` is the generic
best-keeping fold for the measure `-|s|`. -/
theorem minElement_eq_foldlBest (c : MainAxis.Candidate) (l : List MainAxis.Candidate) :
    MainAxis.minElement c l = foldlBest (fun d => -|d.s|) c l := by
  induction l generalizing c with
  | nil => rfl
  | cons x t ih =>
    have hstep : (if MainAxis.CompareCandidate x c then x else c)
        = (if (fun d : MainAxis.Candidate => -|d.s|) x < (fun d : MainAxis.Candidate => -|d.s|) c then x else c) := by
      by_cases h : |c.s| < |x.s|
      · simp [MainAxis.CompareCandidate, h]
      · simp [MainAxis.CompareCandidate, h]
    calc MainAxis.minElement c (x :: t)
        = MainAxis.minElement (if MainAxis.CompareCandidate x c then x else c) t := rfl
      _ = foldlBest (fun d => -|d.s|) (if MainAxis.CompareCandidate x c then x else c) t := ih _
      _ = foldlBest (fun d => -|d.s|) c (x :: t) := by rw [hstep, ← foldlBest_cons]

/-- C9: `MainAxis::CompareCandidate` orders candidates by strictly decreasing
`|s|` (`a` compares less than `b` exactly when `|a.s| > |b.s|`), so the
minimum of a candidate list under this comparator — the `std::min_element`
fold — is a candidate of maximal `|s|`, ties resolved in favor of the first
candidate in enumeration order (every candidate strictly before the chosen one
has strictly smaller `|s|`). -/
theorem claim_C9 :
    (∀ a b : MainAxis.Candidate, MainAxis.CompareCandidate a b = true ↔ |b.s| < |a.s|) ∧
    (∀ (c : MainAxis.Candidate) (l : List MainAxis.Candidate),
      ∃ pre post, c :: l = pre ++ MainAxis.minElement c l :: post ∧
        (∀ x ∈ pre, |x.s| < |(MainAxis.minElement c l).s|) ∧
        (∀ x ∈ c :: l, |x.s| ≤ |(MainAxis.minElement c l).s|)) := by
  constructor
  · intro a b
    simp [MainAxis.CompareCandidate]
  · intro c l
    obtain ⟨pre, post, hsplit, hpre, hmin⟩ := foldlBest_spec (fun d => -|d.s|) c l
    rw [← minElement_eq_foldlBest] at hsplit hpre hmin
    refine ⟨pre, post, hsplit, ?_, ?_⟩
    · intro x hx
      have := hpre x hx
      simpa using this
    · intro x hx
      have := hmin x hx
      simpa using this

/-- Witness for C9 at concrete candidates: a candidate with `s = 3` compares
less than (is preferred over) one with `s = 1`, and the minimum of a concrete
three-candidate list is a candidate of maximal `|s|` with strictly smaller
`|s|` before it. -/
theorem claim_C9_witness :
    MainAxis.CompareCandidate ⟨3, 0, []⟩ ⟨1, 1, []⟩ = true ∧
    (∃ pre post,
      (⟨1, 0, []⟩ : MainAxis.Candidate) :: [⟨-3, 1, []⟩, ⟨2, 2, []⟩]
        = pre ++ MainAxis.minElement ⟨1, 0, []⟩ [⟨-3, 1, []⟩, ⟨2, 2, []⟩] :: post ∧
      (∀ x ∈ pre, |x.s| < |(MainAxis.minElement ⟨1, 0, []⟩ [⟨-3, 1, []⟩, ⟨2, 2, []⟩]).s|) ∧
      (∀ x ∈ (⟨1, 0, []⟩ : MainAxis.Candidate) :: [⟨-3, 1, []⟩, ⟨2, 2, []⟩],
        |x.s| ≤ |(MainAxis.minElement ⟨1, 0, []⟩ [⟨-3, 1, []⟩, ⟨2, 2, []⟩]).s|)) :=
  ⟨(claim_C9.1 ⟨3, 0, []⟩ ⟨1, 1, []⟩).mpr (by norm_num),
    claim_C9.2 ⟨1, 0, []⟩ [⟨-3, 1, []⟩, ⟨2, 2, []⟩]⟩

/-- C6: if the shortest-path search accepts no candidate, or the chosen chord
is degenerate (zero-length chord or zero-area daughter), `update` commits no
mutation: the state — mesh attribute tables and derivative buffers alike — is
returned unchanged, so the condition is recoverable at the next step. -/
theorem claim_C6 :
    (∀ (commit : ShortestPath2D.Candidate → SimState → SimState)
      (areas : ShortestPath2D.Candidate → ℚ × ℚ) (s : SimState),
      ShortestPath2D.update commit areas [] s = s) ∧
    (∀ (commit : ShortestPath2D.Candidate → SimState → SimState)
      (areas : ShortestPath2D.Candidate → ℚ × ℚ) (s : SimState)
      (cands : List ShortestPath2D.Candidate) (c : ShortestPath2D.Candidate),
      ShortestPath2D.selectCandidate cands = some c →
      (c.distance = 0 ∨ (areas c).1 = 0 ∨ (areas c).2 = 0) →
      ShortestPath2D.update commit areas cands s = s) := by
  constructor
  · intro commit areas s
    rfl
  · intro commit areas s cands c hsel hdeg
    simp only [ShortestPath2D.update, hsel]
    rw [if_pos hdeg]

/-- Witness for C6: a concrete zero-length (degenerate) candidate is selected
and `update` leaves the concrete state unchanged even though the commit
function would rewrite it. -/
theorem claim_C6_witness :
    ShortestPath2D.selectCandidate [⟨0, 0, 2, 1, 0, 1, 2⟩] = some ⟨0, 0, 2, 1, 0, 1, 2⟩ ∧
    ((0 : ℚ) = 0 ∨ ((1 : ℚ), (1 : ℚ)).1 = 0 ∨ ((1 : ℚ), (1 : ℚ)).2 = 0) ∧
    ShortestPath2D.update (fun _ _ => ⟨[], [], [], [], [], []⟩) (fun _ => (1, 1))
      [⟨0, 0, 2, 1, 0, 1, 2⟩] ⟨[[1]], [], [], [], [], []⟩ = ⟨[[1]], [], [], [], [], []⟩ := by
  refine ⟨rfl, Or.inl rfl, ?_⟩
  exact claim_C6.2 (fun _ _ => ⟨[], [], [], [], [], []⟩) (fun _ => (1, 1))
    ⟨[[1]], [], [], [], [], []⟩ [⟨0, 0, 2, 1, 0, 1, 2⟩] ⟨0, 0, 2, 1, 0, 1, 2⟩ rfl (Or.inl rfl)

/-- A rational is dyadic when it is an integer divided by a power of two;
every point the bisection visits is dyadic. -/
def IsDyadic (x : ℚ) : Prop := ∃ (k : ℤ) (m : ℕ), x = (k : ℚ) / 2 ^ m

theorem isDyadic_mid {a b : ℚ} (ha : IsDyadic a) (hb : IsDyadic b) :
    IsDyadic ((a + b) / 2) := by
  obtain ⟨k₁, m₁, rfl⟩ := ha
  obtain ⟨k₂, m₂, rfl⟩ := hb
  refine ⟨k₁ * 2 ^ m₂ + k₂ * 2 ^ m₁, m₁ + m₂ + 1, ?_⟩
  push_cast
  rw [div_add_div _ _ (by positivity) (by positivity), div_div, pow_succ, pow_add]
  ring

theorem bisect_dyadic (f : ℚ → ℚ) (n : ℕ) (lo hi : ℚ)
    (hlo : IsDyadic lo) (hhi : IsDyadic hi) :
    IsDyadic (bisect f n lo hi).1 ∧ IsDyadic (bisect f n lo hi).2 := by
  induction n generalizing lo hi with
  | zero => exact ⟨hlo, hhi⟩
  | succ n ih =>
    simp only [bisect]
    by_cases hf : f ((lo + hi) / 2) ≤ 0
    · simp only [if_pos hf]
      exact ih ((lo + hi) / 2) hi (isDyadic_mid hlo hhi) hhi
    · simp only [if_neg hf]
      exact ih lo ((lo + hi) / 2) hlo (isDyadic_mid hlo hhi)

theorem one_third_not_dyadic : ¬ IsDyadic (1 / 3 : ℚ) := by
  rintro ⟨k, m, hk⟩
  have h2 : ((2 : ℚ) ^ m) ≠ 0 := by positivity
  have h3 : (2 : ℚ) ^ m = 3 * k := by
    field_simp at hk
    linarith
  have h4 : (2 : ℤ) ^ m = 3 * k := by
    exact_mod_cast h3
  have h5 : (3 : ℤ) ∣ 2 ^ m := Dvd.intro k h4.symm
  have h6 : (3 : ℤ) ∣ 2 := Int.prime_three.dvd_of_dvd_pow h5
  norm_num at h6

/-- Counterexample to C3 as stated: in the monotone regime `sigma = 1`,
`A = 0`, `B = 3` the objective has its sign change inside `[0, 1]`
(`f 0 = -1 ≤ 0 < 2 = f 1`), yet the value `astar` returns is not an exact
root of the objective: the bisection iterates are dyadic rationals while the
root is `1/3`. -/
theorem counterexample_C3 :
    ShortestPath2D.f 0 1 0 3 ≤ 0 ∧ 0 < ShortestPath2D.f 1 1 0 3 ∧
    0 ≤ ShortestPath2D.astar 1 0 3 ∧ ShortestPath2D.astar 1 0 3 ≤ 1 ∧
    ShortestPath2D.f (ShortestPath2D.astar 1 0 3) 1 0 3 ≠ 0 := by
  have hb := bisect_bounds (fun a => ShortestPath2D.f a 1 0 3) bisectFuel 0 1 (by norm_num)
  refine ⟨by norm_num [ShortestPath2D.f, chordObjective],
    by norm_num [ShortestPath2D.f, chordObjective], hb.1, hb.2.1.trans hb.2.2, ?_⟩
  intro hroot
  have hdyadic : IsDyadic (ShortestPath2D.astar 1 0 3) :=
    (bisect_dyadic (fun a => ShortestPath2D.f a 1 0 3) bisectFuel 0 1
      ⟨0, 0, by norm_num⟩ ⟨1, 0, by norm_num⟩).1
  have hval : ShortestPath2D.astar 1 0 3 = 1 / 3 := by
    have : (0 : ℚ) + ShortestPath2D.astar 1 0 3 * 3 - 1 = 0 := hroot
    linarith
  rw [hval] at hdyadic
  exact one_third_not_dyadic hdyadic

/-- C3 (amended): for every `sigma`, `A`, `B` whose objective has the
monotone regime's sign change over `[0, 1]` (`f 0 ≤ 0 < f 1`), `astar`
returns a value in the closed interval `[0, 1]` that approximates the root of
the objective to the bisection tolerance: the objective is non-positive at the
returned value and positive `2⁻²⁰` above it, so the area-bisection root lies
within the returned bracket. -/
theorem claim_C3 (sigma A B : ℚ)
    (h0 : ShortestPath2D.f 0 sigma A B ≤ 0) (h1 : 0 < ShortestPath2D.f 1 sigma A B) :
    0 ≤ ShortestPath2D.astar sigma A B ∧ ShortestPath2D.astar sigma A B ≤ 1 ∧
    ShortestPath2D.f (ShortestPath2D.astar sigma A B) sigma A B ≤ 0 ∧
    0 < ShortestPath2D.f (ShortestPath2D.astarUpper sigma A B) sigma A B ∧
    ShortestPath2D.astar sigma A B ≤ ShortestPath2D.astarUpper sigma A B ∧
    ShortestPath2D.astarUpper sigma A B ≤ 1 ∧
    ShortestPath2D.astarUpper sigma A B - ShortestPath2D.astar sigma A B = 1 / 2 ^ 20 := by
  have hb := bisect_bounds (fun a => ShortestPath2D.f a sigma A B) bisectFuel 0 1 (by norm_num)
  have hs := bisect_sign (fun a => ShortestPath2D.f a sigma A B) bisectFuel 0 1 h0 h1
  have hw := bisect_width (fun a => ShortestPath2D.f a sigma A B) bisectFuel 0 1
  refine ⟨hb.1, hb.2.1.trans hb.2.2, hs.1, hs.2, hb.2.1, hb.2.2, ?_⟩
  rw [show ShortestPath2D.astarUpper sigma A B
      = (bisect (fun a => ShortestPath2D.f a sigma A B) bisectFuel 0 1).2 from rfl,
    show ShortestPath2D.astar sigma A B
      = (bisect (fun a => ShortestPath2D.f a sigma A B) bisectFuel 0 1).1 from rfl, hw]
  norm_num [bisectFuel]

/-- Witness for C3 at `sigma = 1`, `A = 0`, `B = 3`: the sign-change
hypotheses hold and the bracket conclusion follows. -/
theorem claim_C3_witness :
    (ShortestPath2D.f 0 1 0 3 ≤ 0 ∧ 0 < ShortestPath2D.f 1 1 0 3) ∧
    (0 ≤ ShortestPath2D.astar 1 0 3 ∧ ShortestPath2D.astar 1 0 3 ≤ 1 ∧
      ShortestPath2D.f (ShortestPath2D.astar 1 0 3) 1 0 3 ≤ 0 ∧
      0 < ShortestPath2D.f (ShortestPath2D.astarUpper 1 0 3) 1 0 3 ∧
      ShortestPath2D.astar 1 0 3 ≤ ShortestPath2D.astarUpper 1 0 3 ∧
      ShortestPath2D.astarUpper 1 0 3 ≤ 1 ∧
      ShortestPath2D.astarUpper 1 0 3 - ShortestPath2D.astar 1 0 3 = 1 / 2 ^ 20) := by
  refine ⟨⟨?_, ?_⟩, claim_C3 1 0 3 ?_ ?_⟩ <;>
    norm_num [ShortestPath2D.f, chordObjective]

/-- C1: the shortest-path selection commits, among all accepted candidates,
the one of globally minimal chord distance, ties broken by the lowest
`(wall1, wall2)` pair in enumeration order (the earliest candidate);
a non-degenerate selected candidate is the one `update` commits.  On the
square cell with vertices (0,0),(2,0),(2,2),(0,2) at target ratio 0.5: the
chords through the wall pair `(w0, w2)` split the areas as `4 - s - t` vs
`s + t` (halves of the shoelace values), bisect exactly when `s + t = 2`, and
among bisecting chords the squared length is minimal (value 4) exactly at the
midpoint chord `s = t = 1`; the committed candidate is the pair `(0, 2)`
midpoint chord of distance 2, which bisects the square into two area-2
rectangles (shoelace 4 each). -/
theorem claim_C1 :
    (∀ (c : ShortestPath2D.Candidate) (l : List ShortestPath2D.Candidate),
      ∃ pre post r, ShortestPath2D.selectCandidate (c :: l) = some r ∧
        c :: l = pre ++ r :: post ∧
        (∀ x ∈ pre, r.distance < x.distance) ∧
        (∀ x ∈ c :: l, r.distance ≤ x.distance)) ∧
    (∀ (commit : ShortestPath2D.Candidate → SimState → SimState)
      (areas : ShortestPath2D.Candidate → ℚ × ℚ) (s : SimState)
      (cands : List ShortestPath2D.Candidate) (c : ShortestPath2D.Candidate),
      ShortestPath2D.selectCandidate cands = some c →
      ¬(c.distance = 0 ∨ (areas c).1 = 0 ∨ (areas c).2 = 0) →
      ShortestPath2D.update commit areas cands s = commit c s) ∧
    (∀ s t : ℚ, shoelace (squareDaughterA s t) = 8 - 2 * s - 2 * t ∧
      shoelace (squareDaughterB s t) = 2 * s + 2 * t) ∧
    shoelace squareVerts = 8 ∧
    (∀ s t : ℚ, shoelace (squareDaughterA s t) = shoelace (squareDaughterB s t) ↔ s + t = 2) ∧
    (∀ s t : ℚ, s + t = 2 → 4 ≤ chordLenSq (s, 0) (t, 2)) ∧
    (∀ s t : ℚ, s + t = 2 → chordLenSq (s, 0) (t, 2) = 4 → s = 1 ∧ t = 1) ∧
    ShortestPath2D.selectCandidate squareCandidates = some squareCandidate02 ∧
    squareCandidate02.wall1 = 0 ∧ squareCandidate02.wall2 = 2 ∧
    squareCandidate02.distance = 2 ∧
    chordLenSq (squareCandidate02.px, squareCandidate02.py)
        (squareCandidate02.qx, squareCandidate02.qy) = squareCandidate02.distance ^ 2 ∧
    shoelace (squareDaughterA 1 1) = 4 ∧ shoelace (squareDaughterB 1 1) = 4 := by
  refine ⟨?_, ?_, ?_, ?_, ?_, ?_, ?_, ?_, rfl, rfl, rfl, ?_, ?_, ?_⟩
  · intro c l
    obtain ⟨pre, post, hsplit, hpre, hmin⟩ :=
      foldlBest_spec (fun x : ShortestPath2D.Candidate => x.distance) c l
    exact ⟨pre, post, _, rfl, hsplit, hpre, hmin⟩
  · intro commit areas s cands c hsel hdeg
    simp only [ShortestPath2D.update, hsel]
    rw [if_neg hdeg]
  · intro s t
    constructor
    · simp [squareDaughterA, shoelace, pathSum, lastPt, cross]
      ring
    · simp [squareDaughterB, shoelace, pathSum, lastPt, cross]
      ring
  · norm_num [squareVerts, shoelace, pathSum, lastPt, cross]
  · intro s t
    constructor
    · intro h
      simp [squareDaughterA, squareDaughterB, shoelace, pathSum, lastPt, cross] at h
      linarith
    · intro h
      simp [squareDaughterA, squareDaughterB, shoelace, pathSum, lastPt, cross]
      linarith
  · intro s t h
    have ht : t = 2 - s := by linarith
    subst ht
    simp only [chordLenSq]
    nlinarith [sq_nonneg (2 - 2 * s)]
  · intro s t h heq
    have ht : t = 2 - s := by linarith
    subst ht
    simp only [chordLenSq] at heq
    constructor
    · nlinarith [sq_nonneg (2 - 2 * s)]
    · nlinarith [sq_nonneg (2 - 2 * s)]
  · simp only [squareCandidates, ShortestPath2D.selectCandidate, foldlBest,
      List.foldl_cons, List.foldl_nil]
    norm_num [squareCandidate02, squareCandidate13]
  · norm_num [chordLenSq, squareCandidate02]
  · norm_num [squareDaughterA, shoelace, pathSum, lastPt, cross]
  · norm_num [squareDaughterB, shoelace, pathSum, lastPt, cross]

/-- Witness for C1: the hypothesis-bearing parts at concrete inputs — the
midpoint chord `s = t = 1` satisfies the bisection constraint and attains the
minimal squared length 4, and `update` on the square's candidate list commits
the selected pair-(0,2) candidate (here with a commit function that records
the committed candidate's distance in the cell table). -/
theorem claim_C1_witness :
    ((1 : ℚ) + 1 = 2 ∧ 4 ≤ chordLenSq ((1 : ℚ), (0 : ℚ)) ((1 : ℚ), (2 : ℚ))) ∧
    ShortestPath2D.update
        (fun c _ => ⟨[[c.distance]], [], [], [], [], []⟩) (fun _ => (2, 2))
        squareCandidates ⟨[], [], [], [], [], []⟩
      = ⟨[[2]], [], [], [], [], []⟩ := by
  have h := claim_C1
  refine ⟨⟨by norm_num, h.2.2.2.2.2.1 1 1 (by norm_num)⟩, ?_⟩
  have hc := h.2.1 (fun c _ => (⟨[[c.distance]], [], [], [], [], []⟩ : SimState))
    (fun _ => ((2 : ℚ), (2 : ℚ))) ⟨[], [], [], [], [], []⟩ squareCandidates squareCandidate02
    h.2.2.2.2.2.2.2.1 (by norm_num [squareCandidate02])
  rw [hc]
  rfl

end Division
